import Mathlib

/-!
Verification of the ts-stuff stock-tracker repository.

The repository is a family of near-duplicate TypeScript scripts that poll a
stock-quote API, compute percent change against a per-symbol baseline
("start") price or the previous tick's price, append each cycle's records to
an in-memory daily log mirrored to a JSON file, render a colorized table, and
offline-reduce the log into a per-symbol min/max/average summary.

Modelling conventions, used throughout:
- JS `number` is modelled as `ℚ`.  Division is Lean's total division on `ℚ`
  (division by zero yields `0`); where the TypeScript divides by zero the JS
  value would be `Infinity`/`NaN`, which is still a *non-null* number, and the
  model likewise produces a present (`some _`) junk value there.
- A JS object used as a string-keyed dictionary is modelled as an association
  list `List (String × β)` with `List.lookup`; assignment to a fresh key
  appends, assignment to an existing key updates in place.
- Asynchronous fetches are modelled by passing each fetch's *outcome* as an
  argument (`Option` of the parsed payload); `await`/`Promise.all` sequencing
  becomes ordinary function application, and `try/catch`-wrapped fetch
  helpers that return `null` on error are the `none` case.
- Console output (chalk colors, padding) is modelled only to the extent the
  claims need: the color choice is an explicit `Color` value and the cell
  text is built with a model of `Number.prototype.toFixed(2)`.
-/

/-- Quote returned by `yahooFinance.quote` (src/yahoo-stock/src/types/stockTypes.ts):
`regularMarketPrice` and `currency` are optional fields. -/
structure StockQuote where
  symbol : String
  longName : Option String
  regularMarketPrice : Option ℚ
  currency : Option String
deriving Repr, DecidableEq

/-- Static configuration entry for one tracked stock (stockTypes.ts). -/
structure StockInfo where
  company : String
  symbol : String
deriving Repr, DecidableEq

/-- Record logged for one symbol in one cycle (stockTypes.ts, index.ts).
`price` and `percentChange` are `number | null` in the source. -/
structure StockRecord where
  company : String
  symbol : String
  price : Option ℚ
  currency : String
  percentChange : Option ℚ
deriving Repr, DecidableEq

/-- One entry of the daily log: a timestamp plus one record per tracked stock
(stockTypes.ts `DailyLogEntry`). -/
structure DailyLogEntry where
  timestamp : String
  stocks : List StockRecord
deriving Repr, DecidableEq

/-- Result of one fetch attempt: `fetchStockQuote` resolves to a quote or to
`null` on error, and a usable price additionally requires
`quote.regularMarketPrice !== undefined`.  `validPrice` extracts the price
when both hold. -/
def validPrice (q : Option StockQuote) : Option ℚ :=
  match q with
  | some quote => quote.regularMarketPrice
  | none => none

/-- Per-symbol body of the `results.forEach` loop shared by the start-price
variants (display_stocks.ts `fetchAndDisplayStockData` and the
`startPrices` variant of index.ts / part_007 `fetchAndPrintStockData`):
on a valid quote, record the start price if unset, then compute
`percentChange = ((price - initialPrice) / initialPrice) * 100`
(no zero check in the source: a zero start price divides by zero);
on a missing quote or price, leave `price` and `percentChange` null.
Returns the updated `startPrices` map and the `StockRecord` pushed to
`recordEntries`. -/
def processQuoteStart (startPrices : List (String × ℚ)) (stock : StockInfo)
    (quote : Option StockQuote) : List (String × ℚ) × StockRecord :=
  match validPrice quote with
  | some price =>
      let curr := (quote.getD ⟨stock.symbol, none, none, none⟩).currency.getD ""
      let startPrices2 :=
        if (startPrices.lookup stock.symbol).isSome then startPrices
        else startPrices ++ [(stock.symbol, price)]
      let initialPrice := (startPrices2.lookup stock.symbol).getD 0
      let percentChange := ((price - initialPrice) / initialPrice) * 100
      (startPrices2,
       { company := stock.company, symbol := stock.symbol, price := some price,
         currency := curr, percentChange := some percentChange })
  | none =>
      (startPrices,
       { company := stock.company, symbol := stock.symbol, price := none,
         currency := "", percentChange := none })

/-- Processing of one whole cycle's `results` array by the start-price
variants: fold `processQuoteStart` left to right over the tracked stocks
paired with their fetch outcomes, collecting the records in order. -/
def processListStart : List (String × ℚ) → List (StockInfo × Option StockQuote) →
    List (String × ℚ) × List StockRecord
  | m, [] => (m, [])
  | m, p :: rest =>
      let step := processQuoteStart m p.1 p.2
      let restResult := processListStart step.1 rest
      (restResult.1, step.2 :: restResult.2)

/-- Start-price map left behind by one cycle of a start-price variant. -/
def cycleStarts (m : List (String × ℚ)) (cycle : List (StockInfo × Option StockQuote)) :
    List (String × ℚ) :=
  (processListStart m cycle).1

/-- Start-price map after a whole run: fold the per-cycle update over the
sequence of cycles (each cycle is the tracked stocks paired with that tick's
fetch outcomes). -/
def runStartCycles (m : List (String × ℚ))
    (cycles : List (List (StockInfo × Option StockQuote))) : List (String × ℚ) :=
  cycles.foldl cycleStarts m

/-- Successful fetch prices for symbol `s` within one cycle, in processing
order. -/
def cycleSuccesses (s : String) (cycle : List (StockInfo × Option StockQuote)) : List ℚ :=
  cycle.filterMap (fun p => if p.1.symbol = s then validPrice p.2 else none)

/-- Successful fetch prices for symbol `s` over a whole run, in order. -/
def runSuccesses (s : String) (cycles : List (List (StockInfo × Option StockQuote))) : List ℚ :=
  cycles.flatMap (cycleSuccesses s)

section AssocLemmas

variable {β : Type}

theorem lookup_append (a : String) (l1 l2 : List (String × β)) :
    (l1 ++ l2).lookup a = ((l1.lookup a).or (l2.lookup a)) := by
  induction l1 with
  | nil => simp [List.lookup]
  | cons p rest ih =>
    by_cases h : a = p.1
    · have hb : (a == p.1) = true := by simp [h]
      simp [List.lookup, hb]
    · have hb : (a == p.1) = false := by simp [h]
      simp [List.lookup, hb, ih]

theorem lookup_singleton_ne (s a : String) (h : s ≠ a) (v : β) :
    ([(a, v)] : List (String × β)).lookup s = none := by
  have hb : (s == a) = false := by simp [h]
  simp [List.lookup, hb]

theorem lookup_singleton_eq (a : String) (v : β) :
    ([(a, v)] : List (String × β)).lookup a = some v := by
  simp [List.lookup]

end AssocLemmas

theorem head_append (l1 l2 : List ℚ) : (l1 ++ l2).head? = l1.head?.or l2.head? := by
  cases l1 <;> simp

theorem head_filterMap_cons {α : Type} (f : α → Option ℚ) (a : α) (l : List α) :
    (List.filterMap f (a :: l)).head? = (f a).or (List.filterMap f l).head? := by
  cases h : f a <;> simp [List.filterMap_cons, h]

/-- Effect of one `processQuoteStart` step on the start price recorded for an
arbitrary symbol `s`: an existing entry always wins, and a new entry appears
exactly when the processed stock is `s` and its fetch succeeded. -/
theorem processQuoteStart_lookup (m : List (String × ℚ)) (stock : StockInfo)
    (q : Option StockQuote) (s : String) :
    ((processQuoteStart m stock q).1.lookup s) =
      (m.lookup s).or (if stock.symbol = s then validPrice q else none) := by
  cases hv : validPrice q with
  | none =>
      simp [processQuoteStart, hv]
  | some p =>
      cases hm : m.lookup stock.symbol with
      | some v =>
          have hsome : (m.lookup stock.symbol).isSome = true := by simp [hm]
          by_cases hss : stock.symbol = s
          · subst hss
            simp [processQuoteStart, hv, hsome, hm]
          · simp only [processQuoteStart, hv, hsome, if_true, if_neg hss]
            cases m.lookup s <;> simp
      | none =>
          have hsome : (m.lookup stock.symbol).isSome = false := by simp [hm]
          by_cases hss : stock.symbol = s
          · subst hss
            simp only [processQuoteStart, hv, hsome, Bool.false_eq_true, if_false, if_pos rfl]
            rw [lookup_append, hm, lookup_singleton_eq]
            simp
          · simp only [processQuoteStart, hv, hsome, Bool.false_eq_true, if_false, if_neg hss]
            rw [lookup_append, lookup_singleton_ne s stock.symbol (fun h => hss h.symm)]

/-- Effect of one whole cycle on the start price recorded for `s`: the
pre-cycle entry wins, else the first successful price for `s` in the cycle. -/
theorem cycleStarts_lookup (m : List (String × ℚ))
    (cycle : List (StockInfo × Option StockQuote)) (s : String) :
    (cycleStarts m cycle).lookup s = (m.lookup s).or (cycleSuccesses s cycle).head? := by
  induction cycle generalizing m with
  | nil => simp [cycleStarts, processListStart, cycleSuccesses]
  | cons p rest ih =>
    have hstep : cycleStarts m (p :: rest) =
        cycleStarts (processQuoteStart m p.1 p.2).1 rest := by
      simp [cycleStarts, processListStart]
    rw [hstep, ih, processQuoteStart_lookup]
    unfold cycleSuccesses
    rw [head_filterMap_cons]
    cases m.lookup s <;> simp [Option.or_assoc, cycleSuccesses]

/-- Effect of a whole run on the start price recorded for `s`. -/
theorem runStartCycles_lookup (m : List (String × ℚ))
    (cycles : List (List (StockInfo × Option StockQuote))) (s : String) :
    (runStartCycles m cycles).lookup s = (m.lookup s).or (runSuccesses s cycles).head? := by
  induction cycles generalizing m with
  | nil => simp [runStartCycles, runSuccesses]
  | cons c rest ih =>
    have hstep : runStartCycles m (c :: rest) = runStartCycles (cycleStarts m c) rest := by
      simp [runStartCycles]
    rw [hstep, ih, cycleStarts_lookup]
    have hsucc : runSuccesses s (c :: rest) =
        cycleSuccesses s c ++ runSuccesses s rest := by
      simp [runSuccesses]
    rw [hsucc, head_append]
    cases m.lookup s <;> simp [Option.or_assoc]

/-- C2: for every sequence of per-cycle fetch outcomes, every symbol `s` and
every prefix length `n`, the start price stored for `s` after the first `n`
cycles equals the price of the first successful fetch for `s` within those
cycles (and is `none` when there was no success yet).  In particular the
stored start price is determined by the first success alone, so no later
cycle — successful or not — ever changes it. -/
theorem startPrice_eq_first_success
    (cycles : List (List (StockInfo × Option StockQuote))) (s : String) (n : ℕ) :
    (runStartCycles [] (cycles.take n)).lookup s =
      (runSuccesses s (cycles.take n)).head? := by
  rw [runStartCycles_lookup]
  simp [List.lookup]

/-- Percent change computed by `processQuoteStart` on a successful fetch, in
terms of the start price stored after the step (the source reads
`initialPrice` back out of `startPrices` right after possibly setting it). -/
theorem processQuoteStart_pc (m : List (String × ℚ)) (stock : StockInfo)
    (q : Option StockQuote) (p : ℚ) (hv : validPrice q = some p) :
    (processQuoteStart m stock q).2.percentChange =
      some ((p - ((processQuoteStart m stock q).1.lookup stock.symbol).getD 0) /
            (((processQuoteStart m stock q).1.lookup stock.symbol).getD 0) * 100) := by
  simp only [processQuoteStart, hv]

/-- C1 (amended): in the start-price variants the percent change of a record
is absent iff that symbol's fetch failed to produce a usable price; when the
fetch succeeds with price `p`, a start price `b` is always defined afterwards
(set to `p` on this very step if it was absent), and whenever `b ≠ 0` the
percent change equals exactly `(p - b) / b * 100`.  (A zero start price does
NOT make later percent changes absent — see the counterexample.) -/
theorem percentChange_absent_iff_fetch_failed (m : List (String × ℚ)) (stock : StockInfo)
    (q : Option StockQuote) :
    ((processQuoteStart m stock q).2.percentChange = none ↔ validPrice q = none) ∧
    (∀ p, validPrice q = some p →
      ∃ b, (processQuoteStart m stock q).1.lookup stock.symbol = some b ∧
        (b ≠ 0 →
          (processQuoteStart m stock q).2.percentChange = some ((p - b) / b * 100))) := by
  constructor
  · cases hv : validPrice q with
    | none => simp [processQuoteStart, hv]
    | some p => simp [processQuoteStart, hv]
  · intro p hp
    obtain ⟨b, hb⟩ : ∃ b, (m.lookup stock.symbol).or (some p) = some b := by
      cases m.lookup stock.symbol <;> exact ⟨_, rfl⟩
    have hlook : (processQuoteStart m stock q).1.lookup stock.symbol = some b := by
      rw [processQuoteStart_lookup, if_pos rfl, hp, hb]
    refine ⟨b, hlook, fun _ => ?_⟩
    rw [processQuoteStart_pc m stock q p hp, hlook]
    rfl

/-- C1 counterexample: the claim "percent change is absent iff the baseline is
absent or zero" is false on the code.  Concretely, with an empty start-price
map, a successful fetch for INTC at price `0` sets the start price to `0`
and still produces a *present* percent change (`some` of the division-by-zero
junk value, `NaN` in JS), and so does a later successful fetch at price `5` —
the claim requires both to be absent. -/
theorem percentChange_zero_baseline_not_absent :
    ((processQuoteStart [] ⟨"Intel", "INTC"⟩
        (some ⟨"INTC", none, some 0, some "USD"⟩)).1.lookup "INTC" = some 0) ∧
    ((processQuoteStart [] ⟨"Intel", "INTC"⟩
        (some ⟨"INTC", none, some 0, some "USD"⟩)).2.percentChange ≠ none) ∧
    ((processQuoteStart
        (processQuoteStart [] ⟨"Intel", "INTC"⟩
          (some ⟨"INTC", none, some 0, some "USD"⟩)).1
        ⟨"Intel", "INTC"⟩
        (some ⟨"INTC", none, some 5, some "USD"⟩)).2.percentChange ≠ none) := by
  refine ⟨?_, ?_, ?_⟩
  · simp [processQuoteStart, validPrice, List.lookup]
  · simp [processQuoteStart, validPrice]
  · simp [processQuoteStart, validPrice, List.lookup]

/-- Witness for `percentChange_absent_iff_fetch_failed`: instantiated at a
successful SKF fetch at price 4 with empty prior state. -/
theorem percentChange_absent_iff_fetch_failed_witness :
    ∃ b, (processQuoteStart [] ⟨"SKF", "SKF-B.ST"⟩
        (some ⟨"SKF-B.ST", none, some 4, some "SEK"⟩)).1.lookup "SKF-B.ST" = some b ∧
      (b ≠ 0 →
        (processQuoteStart [] ⟨"SKF", "SKF-B.ST"⟩
          (some ⟨"SKF-B.ST", none, some 4, some "SEK"⟩)).2.percentChange =
            some ((4 - b) / b * 100)) :=
  (percentChange_absent_iff_fetch_failed [] ⟨"SKF", "SKF-B.ST"⟩
    (some ⟨"SKF-B.ST", none, some 4, some "SEK"⟩)).2 4 rfl

/-- Assignment `obj[key] = v` on a JS object modelled as an association list:
update in place when the key exists, append otherwise. -/
def upsert (m : List (String × ℚ)) (k : String) (v : ℚ) : List (String × ℚ) :=
  if (m.lookup k).isSome then m.map (fun q => if q.1 = k then (q.1, v) else q)
  else m ++ [(k, v)]

/-- Per-symbol body of the `results.forEach` loop in the previous-price
variant of index.ts (`fetchAndPrintStockData`, first draft): on a valid
quote, compute the change against `previousPrices[symbol]` when defined
(`0` when the price is unchanged), then overwrite the previous price; on a
missing quote or price, leave `price` and `percentChange` null and the map
untouched. -/
def processQuotePrev (previousPrices : List (String × ℚ)) (stock : StockInfo)
    (quote : Option StockQuote) : List (String × ℚ) × StockRecord :=
  match validPrice quote with
  | some price =>
      let curr := (quote.getD ⟨stock.symbol, none, none, none⟩).currency.getD ""
      let percentChange : Option ℚ :=
        match previousPrices.lookup stock.symbol with
        | some oldPrice =>
            if price ≠ oldPrice then some ((price - oldPrice) / oldPrice * 100) else some 0
        | none => none
      (upsert previousPrices stock.symbol price,
       { company := stock.company, symbol := stock.symbol, price := some price,
         currency := curr, percentChange := percentChange })
  | none =>
      (previousPrices,
       { company := stock.company, symbol := stock.symbol, price := none,
         currency := "", percentChange := none })

/-- Processing of one whole cycle's `results` array by the previous-price
variant, collecting the records in order. -/
def processListPrev : List (String × ℚ) → List (StockInfo × Option StockQuote) →
    List (String × ℚ) × List StockRecord
  | m, [] => (m, [])
  | m, p :: rest =>
      let step := processQuotePrev m p.1 p.2
      let restResult := processListPrev step.1 rest
      (restResult.1, step.2 :: restResult.2)

/-- One invocation of the previous-price variant's `fetchAndPrintStockData`
acting on the daily log: process every tracked stock's fetch outcome, then
push exactly one `DailyLogEntry` holding all records (the push happens
regardless of which rows get printed). -/
def fetchAndPrintStockData (dailyLog : List DailyLogEntry) (prev : List (String × ℚ))
    (timestampStr : String) (results : List (StockInfo × Option StockQuote)) :
    List DailyLogEntry × List (String × ℚ) :=
  let processed := processListPrev prev results
  (dailyLog ++ [⟨timestampStr, processed.2⟩], processed.1)

/-- Records produced by a cycle line up one-for-one, in order, with the
tracked stocks, carrying their company and symbol; a failed fetch yields the
null-field record. -/
theorem processListPrev_records (prev : List (String × ℚ))
    (results : List (StockInfo × Option StockQuote)) :
    List.Forall₂ (fun (p : StockInfo × Option StockQuote) (r : StockRecord) =>
        r.company = p.1.company ∧ r.symbol = p.1.symbol ∧
        (validPrice p.2 = none → r.price = none ∧ r.percentChange = none))
      results (processListPrev prev results).2 := by
  induction results generalizing prev with
  | nil => simp [processListPrev]
  | cons p rest ih =>
    refine List.Forall₂.cons ?_ (ih (processQuotePrev prev p.1 p.2).1)
    cases hv : validPrice p.2 with
    | none => simp [processQuotePrev, hv]
    | some price => simp [processQuotePrev, hv]

/-- C3: every poll cycle of the previous-price variant appends exactly one
`DailyLogEntry` to the daily log, whose `stocks` array has exactly one
`StockRecord` per tracked symbol in tracked order (so the cycle is never
aborted by a failure); a symbol whose fetch failed or carried no price gets
`price = null` and `percentChange = null`.  (In the source every fetch error
is caught inside `fetchStockQuote` and surfaces as `null`, so the cycle body
itself never throws; the model is the resulting total function.) -/
theorem cycle_appends_one_full_entry (dailyLog : List DailyLogEntry)
    (prev : List (String × ℚ)) (ts : String)
    (results : List (StockInfo × Option StockQuote)) :
    (fetchAndPrintStockData dailyLog prev ts results).1 =
      dailyLog ++ [⟨ts, (processListPrev prev results).2⟩] ∧
    (processListPrev prev results).2.length = results.length ∧
    List.Forall₂ (fun (p : StockInfo × Option StockQuote) (r : StockRecord) =>
        r.company = p.1.company ∧ r.symbol = p.1.symbol ∧
        (validPrice p.2 = none → r.price = none ∧ r.percentChange = none))
      results (processListPrev prev results).2 :=
  ⟨rfl, (processListPrev_records prev results).length_eq.symm,
   processListPrev_records prev results⟩

/-- Witness for `cycle_appends_one_full_entry`: a concrete two-stock cycle
where the first fetch fails and the second succeeds. -/
theorem cycle_appends_one_full_entry_witness :
    (fetchAndPrintStockData [] [] "2025-01-01T00:00:00.000Z"
        [(⟨"Intel", "INTC"⟩, none),
         (⟨"SKF", "SKF-B.ST"⟩, some ⟨"SKF-B.ST", none, some 4, some "SEK"⟩)]).1 =
      [] ++ [⟨"2025-01-01T00:00:00.000Z",
        (processListPrev []
          [(⟨"Intel", "INTC"⟩, none),
           (⟨"SKF", "SKF-B.ST"⟩, some ⟨"SKF-B.ST", none, some 4, some "SEK"⟩)]).2⟩] ∧
    (processListPrev []
        [(⟨"Intel", "INTC"⟩, none),
         (⟨"SKF", "SKF-B.ST"⟩, some ⟨"SKF-B.ST", none, some 4, some "SEK"⟩)]).2.length = 2 ∧
    List.Forall₂ (fun (p : StockInfo × Option StockQuote) (r : StockRecord) =>
        r.company = p.1.company ∧ r.symbol = p.1.symbol ∧
        (validPrice p.2 = none → r.price = none ∧ r.percentChange = none))
      [(⟨"Intel", "INTC"⟩, none),
       (⟨"SKF", "SKF-B.ST"⟩, some ⟨"SKF-B.ST", none, some 4, some "SEK"⟩)]
      (processListPrev []
        [(⟨"Intel", "INTC"⟩, none),
         (⟨"SKF", "SKF-B.ST"⟩, some ⟨"SKF-B.ST", none, some 4, some "SEK"⟩)]).2 :=
  cycle_appends_one_full_entry [] [] "2025-01-01T00:00:00.000Z"
    [(⟨"Intel", "INTC"⟩, none),
     (⟨"SKF", "SKF-B.ST"⟩, some ⟨"SKF-B.ST", none, some 4, some "SEK"⟩)]

/-- Chalk color applied to a piece of terminal output. -/
inductive Color
  | green
  | red
  | white
  | gray
  | yellow
deriving Repr, DecidableEq

/-- Model of JavaScript `Number.prototype.toFixed(2)`: render the value
rounded to two decimal places. -/
def toFixed2 (q : ℚ) : String :=
  let n : ℤ := round (q * 100)
  let sign := if n < 0 then "-" else ""
  let m := n.natAbs
  sign ++ toString (m / 100) ++ "." ++ (if m % 100 < 10 then "0" else "") ++ toString (m % 100)

/-- Plain (uncolored) text of the percent-change cell in
display_stocks.ts `fetchAndDisplayStockData` (second draft): initialized to
`"N/A"` and overwritten with `percentChange.toFixed(2) + "%"` only when a
percent change was computed. -/
def percentChangePlain (pc : Option ℚ) : String :=
  match pc with
  | some q => toFixed2 q ++ "%"
  | none => "N/A"

/-- Color applied to the percent-change cell:
`percentChange !== null ? (pc > 0 ? green : pc < 0 ? red : white) : white`. -/
def percentColor (pc : Option ℚ) : Color :=
  match pc with
  | some q => if q > 0 then Color.green else if q < 0 then Color.red else Color.white
  | none => Color.white

/-- C9: a strictly positive percent change is colored green, a strictly
negative one red, and a zero or absent one gets the neutral color (white);
an absent value's cell text is the literal `"N/A"`, while a present value's
cell text is its two-decimal rendering followed by `"%"`. -/
theorem percent_cell_coloring (pc : Option ℚ) :
    (∀ q, pc = some q → 0 < q → percentColor pc = Color.green) ∧
    (∀ q, pc = some q → q < 0 → percentColor pc = Color.red) ∧
    (pc = some 0 ∨ pc = none → percentColor pc = Color.white) ∧
    (pc = none → percentChangePlain pc = "N/A") ∧
    (∀ q, pc = some q → percentChangePlain pc = toFixed2 q ++ "%") := by
  refine ⟨?_, ?_, ?_, ?_, ?_⟩
  · rintro q rfl hq
    simp [percentColor, hq]
  · rintro q rfl hq
    have : ¬q > 0 := by linarith
    simp [percentColor, hq, this]
  · rintro (rfl | rfl) <;> simp [percentColor]
  · rintro rfl
    rfl
  · rintro q rfl
    rfl

/-- Witness for `percent_cell_coloring`: evaluated at `+1`, `-1`, `0` and the
absent percent change. -/
theorem percent_cell_coloring_witness :
    percentColor (some 1) = Color.green ∧ percentColor (some (-1)) = Color.red ∧
    percentColor (some 0) = Color.white ∧ percentColor none = Color.white ∧
    percentChangePlain none = "N/A" :=
  ⟨(percent_cell_coloring (some 1)).1 1 rfl (by norm_num),
   (percent_cell_coloring (some (-1))).2.1 (-1) rfl (by norm_num),
   (percent_cell_coloring (some 0)).2.2.1 (Or.inl rfl),
   (percent_cell_coloring none).2.2.1 (Or.inr rfl),
   (percent_cell_coloring none).2.2.2.1 rfl⟩

/-- Print threshold of the `startPrices` variant of index.ts:
`const THRESHOLD = 0.05` (percent). -/
def THRESHOLD : ℚ := 5 / 100

/-- Guard deciding whether a symbol's row is pushed to `rowsToPrint` in the
`startPrices` variant of index.ts:
`isFirstUpdate || (percentChange !== null && Math.abs(percentChange) >= THRESHOLD)`. -/
def shouldPrintRow (isFirstUpdate : Bool) (percentChange : Option ℚ) : Bool :=
  isFirstUpdate ||
    (match percentChange with
     | some q => decide (|q| ≥ THRESHOLD)
     | none => false)

/-- C8 counterexample: the claim "after the first cycle a symbol is rendered
only if its absolute percent change *exceeds* the threshold" is false on the
code: the source compares with `>=`, so a percent change of exactly
`THRESHOLD` (0.05) is rendered on a non-first cycle even though it does not
exceed the threshold. -/
theorem threshold_boundary_row_printed :
    shouldPrintRow false (some THRESHOLD) = true ∧ ¬ THRESHOLD < |THRESHOLD| := by
  have habs : |THRESHOLD| = THRESHOLD := abs_of_nonneg (by norm_num [THRESHOLD])
  constructor
  · simp [shouldPrintRow, habs]
  · rw [habs]
    exact lt_irrefl THRESHOLD

/-- C8 (amended): on the very first cycle every symbol's row is printed
regardless of its percent change; on a later cycle a row is printed iff a
percent change was computed and its absolute value is *at least* the 0.05
threshold (the source uses `>=`, not a strict comparison), so a symbol with
percent change exactly 0.00, or with an absent percent change, is suppressed
after the first cycle. -/
theorem threshold_render_policy (pc : Option ℚ) :
    shouldPrintRow true pc = true ∧
    (shouldPrintRow false pc = true ↔ ∃ q, pc = some q ∧ THRESHOLD ≤ |q|) ∧
    shouldPrintRow false (some 0) = false ∧
    shouldPrintRow false none = false := by
  refine ⟨by simp [shouldPrintRow], ?_, by simp [shouldPrintRow, THRESHOLD], by simp [shouldPrintRow]⟩
  cases pc with
  | none => simp [shouldPrintRow]
  | some q =>
      simp only [shouldPrintRow, Bool.false_or, decide_eq_true_eq, ge_iff_le]
      constructor
      · intro h
        exact ⟨q, rfl, h⟩
      · rintro ⟨q2, hq2, h⟩
        cases Option.some.inj hq2
        exact h

/-- Witness for `threshold_render_policy`: evaluated at an absent percent
change. -/
theorem threshold_render_policy_witness :
    shouldPrintRow true none = true ∧
    (shouldPrintRow false none = true ↔ ∃ q, (none : Option ℚ) = some q ∧ THRESHOLD ≤ |q|) ∧
    shouldPrintRow false (some 0) = false ∧
    shouldPrintRow false none = false :=
  threshold_render_policy none

/-- Payload produced by part_001's `fetchStockPrice`: a finite parsed price
plus the quote's currency (`null` outcomes — transport error or `NaN` price —
are the `none` case of the `Option` it is carried in). -/
structure StockPriceData where
  price : ℚ
  currency : String
deriving Repr, DecidableEq

/-- Data content of one output row of part_001 (inputs of `formatRow`); the
ANSI-colored row string built from it is presentation only. -/
structure RowData where
  nowStr : String
  sek : ℚ
  change : ℚ
  changePercent : ℚ
deriving Repr, DecidableEq

/-- Module-level mutable state of part_001: running SEK total and poll count
for the running average, the previous SEK price, and the accumulated output
rows. -/
structure TrackerState where
  totalPriceSek : ℚ
  pollCount : ℕ
  prevPriceSek : Option ℚ
  rows : List RowData
deriving Repr, DecidableEq

/-- Shared tail of part_001's `trackPrice` once a SEK price is available:
update the running totals, compute the tick-over-tick change (zero on the
first poll), remember the price and push one row. -/
def trackPriceRecord (st : TrackerState) (nowStr : String) (priceSek : ℚ) : TrackerState :=
  let change : ℚ :=
    match st.prevPriceSek with
    | some prev => priceSek - prev
    | none => 0
  let changePercent : ℚ :=
    match st.prevPriceSek with
    | some prev => (priceSek - prev) / prev * 100
    | none => 0
  { totalPriceSek := st.totalPriceSek + priceSek,
    pollCount := st.pollCount + 1,
    prevPriceSek := some priceSek,
    rows := st.rows ++ [⟨nowStr, priceSek, change, changePercent⟩] }

/-- Part_001's `trackPrice`, with the two fetch outcomes passed in: bail out
when the quote fetch failed; when the quote's currency is not SEK, bail out
when the conversion-rate fetch failed, else convert; then record. -/
def trackPrice (st : TrackerState) (nowStr : String) (stockData : Option StockPriceData)
    (rate : Option ℚ) : TrackerState :=
  match stockData with
  | none => st
  | some d =>
      if d.currency = "SEK" then trackPriceRecord st nowStr d.price
      else
        match rate with
        | none => st
        | some r => trackPriceRecord st nowStr (d.price * r)

/-- C6: in the currency-converting tracker, when the quote fetch succeeds
with a non-SEK currency but the conversion-rate fetch fails, the whole update
is skipped atomically: the state (running total, poll count, previous price
and rows) is returned exactly unchanged. -/
theorem conversion_failure_skips_update (st : TrackerState) (nowStr : String)
    (p : ℚ) (c : String) (hc : c ≠ "SEK") :
    trackPrice st nowStr (some ⟨p, c⟩) none = st := by
  simp [trackPrice, hc]

/-- Witness for `conversion_failure_skips_update`: a concrete non-empty state
and a successful USD quote with a failed conversion fetch. -/
theorem conversion_failure_skips_update_witness :
    trackPrice ⟨100, 2, some 50, [⟨"10:00:00", 50, 0, 0⟩]⟩ "10:00:15"
      (some ⟨7, "USD"⟩) none = ⟨100, 2, some 50, [⟨"10:00:00", 50, 0, 0⟩]⟩ :=
  conversion_failure_skips_update ⟨100, 2, some 50, [⟨"10:00:00", 50, 0, 0⟩]⟩
    "10:00:15" 7 "USD" (by decide)

/-- Per-symbol running statistics collected by dailySummary.ts.  The source
initializes `min` to `Infinity` and `max` to `-Infinity`; those sentinels are
modelled as `none` (every finite price compares below `Infinity` and above
`-Infinity`). -/
structure SymbolStats where
  company : String
  symbol : String
  sum : ℚ
  count : ℕ
  min : Option ℚ
  minTime : String
  max : Option ℚ
  maxTime : String
deriving Repr, DecidableEq

/-- Fresh `statsMap` entry for a symbol (dailySummary.ts lines 55-64):
`sum: 0, count: 0, min: Infinity, minTime: "", max: -Infinity, maxTime: ""`. -/
def initStats (company symbol : String) : SymbolStats :=
  ⟨company, symbol, 0, 0, none, "", none, ""⟩

/-- The comparison `stock.price < symbolStats.min` with `min = Infinity`
modelled as `none`. -/
def ltMin (p : ℚ) (m : Option ℚ) : Bool :=
  match m with
  | some mn => decide (p < mn)
  | none => true

/-- The comparison `stock.price > symbolStats.max` with `max = -Infinity`
modelled as `none`. -/
def gtMax (p : ℚ) (m : Option ℚ) : Bool :=
  match m with
  | some mx => decide (mx < p)
  | none => true

/-- Update of one stats record by one non-null price observation
(dailySummary.ts lines 67-80): add to the sum, bump the count, and take over
min/max together with the entry's timestamp when strictly better. -/
def applyPrice (t : String) (p : ℚ) (s : SymbolStats) : SymbolStats :=
  let s1 := { s with sum := s.sum + p, count := s.count + 1 }
  let s2 := if ltMin p s1.min then { s1 with min := some p, minTime := t } else s1
  if gtMax p s2.max then { s2 with max := some p, maxTime := t } else s2

/-- Processing of one `StockRecord` against the stats map (the body of the
inner `entry.stocks.forEach`): a null price contributes nothing; otherwise
initialize the symbol's entry if missing and update it with the price. -/
def recordStep (t : String) (m : List (String × SymbolStats)) (r : StockRecord) :
    List (String × SymbolStats) :=
  match r.price with
  | none => m
  | some p =>
      let m1 := if (m.lookup r.symbol).isSome then m
                else m ++ [(r.symbol, initStats r.company r.symbol)]
      m1.map (fun q => if q.1 = r.symbol then (q.1, applyPrice t p q.2) else q)

/-- Processing of one `DailyLogEntry` (the body of `dailyLog.forEach`). -/
def entryStep (m : List (String × SymbolStats)) (e : DailyLogEntry) :
    List (String × SymbolStats) :=
  e.stocks.foldl (recordStep e.timestamp) m

/-- The `statsMap` built by dailySummary.ts from the parsed daily log. -/
def statsMap (log : List DailyLogEntry) : List (String × SymbolStats) :=
  log.foldl entryStep []

/-- One element of the summary array written to dailySummary.json. -/
structure SummaryEntry where
  company : String
  symbol : String
  averagePrice : ℚ
  minPrice : Option ℚ
  minTime : String
  maxPrice : Option ℚ
  maxTime : String
deriving Repr, DecidableEq

/-- Projection of accumulated stats to a summary entry (dailySummary.ts
lines 86-97): `averagePrice = count > 0 ? sum / count : 0`, and the
`Infinity`/`-Infinity` sentinels (modelled `none`) become `null`. -/
def summarize (s : SymbolStats) : SummaryEntry :=
  ⟨s.company, s.symbol, if s.count > 0 then s.sum / (s.count : ℚ) else 0,
   s.min, s.minTime, s.max, s.maxTime⟩

/-- The `finalSummary` array: one entry per `statsMap` value, in insertion
order (`Object.values`). -/
def finalSummary (log : List DailyLogEntry) : List SummaryEntry :=
  (statsMap log).map (fun p => summarize p.2)

/-- Outcome of one run of the dailySummary.ts script. `summaryWrite` is the
content handed to `fs.writeFile` for the summary file (`none` when the write
was never attempted), `exitCode` the process exit code. -/
structure SummaryRunOutcome where
  exitCode : ℕ
  summaryWrite : Option (List SummaryEntry)
  parseErrorReported : Bool
deriving Repr, DecidableEq

/-- Control flow of dailySummary.ts after the log file was read successfully:
`JSON.parse` is the external JS primitive, so its outcome is a parameter —
`none` models a thrown parse error (any byte string that is not valid JSON),
`some log` a successful parse.  On a parse error the `catch` block reports
the error and exits with code 1 without ever reaching `fs.writeFile`; on
success the summary is written (exit 0) unless the write itself fails
(exit 1, `writeOk = false`). -/
def runDailySummary (parsed : Option (List DailyLogEntry)) (writeOk : Bool) :
    SummaryRunOutcome :=
  match parsed with
  | none => ⟨1, none, true⟩
  | some log => if writeOk then ⟨0, some (finalSummary log), false⟩
                else ⟨1, some (finalSummary log), false⟩

/-- C7: whenever the log file's contents fail to parse as JSON, the summary
reducer reports the parse error and exits with code 1, and the summary file
write is never attempted — no partial summary is produced. -/
theorem malformed_log_no_summary (writeOk : Bool) :
    (runDailySummary none writeOk).exitCode = 1 ∧
    (runDailySummary none writeOk).summaryWrite = none ∧
    (runDailySummary none writeOk).parseErrorReported = true :=
  ⟨rfl, rfl, rfl⟩

/-- One non-null price observation extracted from the daily log for a fixed
symbol: the entry's timestamp, the record's company and the price. -/
structure Obs where
  t : String
  company : String
  p : ℚ
deriving Repr, DecidableEq

/-- Observations contributed by a single record (at most one). -/
def obsOfRecord (s : String) (t : String) (r : StockRecord) : List Obs :=
  match r.price with
  | some p => if r.symbol = s then [⟨t, r.company, p⟩] else []
  | none => []

/-- Observations contributed by one log entry, in record order. -/
def obsOfEntry (s : String) (e : DailyLogEntry) : List Obs :=
  e.stocks.flatMap (obsOfRecord s e.timestamp)

/-- All observations for symbol `s` across the whole log, in order. -/
def obsOf (s : String) (log : List DailyLogEntry) : List Obs :=
  log.flatMap (obsOfEntry s)

/-- The non-null prices recorded for symbol `s` across the whole log. -/
def pricesOf (s : String) (log : List DailyLogEntry) : List ℚ :=
  (obsOf s log).map Obs.p

/-- Combined create-or-update step on the optional stats for symbol `s`
induced by one observation. -/
def upsertObs (s : String) (acc : Option SymbolStats) (ob : Obs) : Option SymbolStats :=
  some (applyPrice ob.t ob.p (acc.getD (initStats ob.company s)))

/-- Plain update step once the stats record exists. -/
def applyObs (st : SymbolStats) (ob : Obs) : SymbolStats :=
  applyPrice ob.t ob.p st

section AssocModifyLemmas

variable {β : Type}

theorem lookup_map_modify_eq (a : String) (f : β → β) (l : List (String × β)) :
    (l.map (fun q => if q.1 = a then (q.1, f q.2) else q)).lookup a = (l.lookup a).map f := by
  induction l with
  | nil => simp [List.lookup]
  | cons p rest ih =>
    obtain ⟨k, v⟩ := p
    by_cases h : k = a
    · subst h
      have hb : (k == k) = true := by simp
      simp only [List.map_cons, if_pos rfl]
      simp [List.lookup, hb]
    · have hb : (a == k) = false := by simp [Ne.symm h]
      simp only [List.map_cons, if_neg h]
      simp [List.lookup, hb, ih]

theorem lookup_map_modify_ne (s a : String) (h : s ≠ a) (f : β → β) (l : List (String × β)) :
    (l.map (fun q => if q.1 = a then (q.1, f q.2) else q)).lookup s = l.lookup s := by
  induction l with
  | nil => simp [List.lookup]
  | cons p rest ih =>
    obtain ⟨k, v⟩ := p
    by_cases hk : k = a
    · subst hk
      have hb : (s == k) = false := by simp [h]
      simp only [List.map_cons, if_pos rfl]
      simp [List.lookup, hb, ih]
    · simp only [List.map_cons, if_neg hk]
      by_cases h2 : s = k
      · subst h2
        have hb : (s == s) = true := by simp
        simp [List.lookup, hb]
      · have hb : (s == k) = false := by simp [h2]
        simp [List.lookup, hb, ih]

theorem lookup_none_iff (a : String) (l : List (String × β)) :
    l.lookup a = none ↔ a ∉ l.map Prod.fst := by
  induction l with
  | nil => simp [List.lookup]
  | cons p rest ih =>
    by_cases h : a = p.1
    · have hb : (a == p.1) = true := by simp [h]
      simp [List.lookup, hb, h]
    · have hb : (a == p.1) = false := by simp [h]
      simp [List.lookup, hb, ih, h]

theorem keys_map_modify (a : String) (f : β → β) (l : List (String × β)) :
    (l.map (fun q => if q.1 = a then (q.1, f q.2) else q)).map Prod.fst = l.map Prod.fst := by
  induction l with
  | nil => rfl
  | cons p rest ih =>
    by_cases h : p.1 = a
    · simp [h, ih]
    · simp [h, ih]

theorem lookup_of_mem_nodup (l : List (String × β)) (p : String × β)
    (hnd : (l.map Prod.fst).Nodup) (hm : p ∈ l) : l.lookup p.1 = some p.2 := by
  induction l with
  | nil => simp at hm
  | cons q rest ih =>
    rcases List.mem_cons.mp hm with rfl | hm2
    · have hb : (p.1 == p.1) = true := by simp
      simp [List.lookup, hb]
    · have hne : p.1 ≠ q.1 := by
        intro hcontra
        have : q.1 ∈ rest.map Prod.fst := by
          rw [← hcontra]
          exact List.mem_map.mpr ⟨p, hm2, rfl⟩
        simp only [List.map_cons, List.nodup_cons] at hnd
        exact hnd.1 this
      have hb : (p.1 == q.1) = false := by simp [hne]
      have hnd2 : (rest.map Prod.fst).Nodup := by
        simp only [List.map_cons, List.nodup_cons] at hnd
        exact hnd.2
      simp [List.lookup, hb, ih hnd2 hm2]

end AssocModifyLemmas

/-- Effect of processing one record on the stats looked up for symbol `s`:
exactly the fold of that record's observations. -/
theorem recordStep_lookup (t : String) (m : List (String × SymbolStats))
    (r : StockRecord) (s : String) :
    (recordStep t m r).lookup s = (obsOfRecord s t r).foldl (upsertObs s) (m.lookup s) := by
  cases hp : r.price with
  | none => simp [recordStep, obsOfRecord, hp]
  | some p =>
    by_cases hsym : r.symbol = s
    · subst hsym
      cases hm : m.lookup r.symbol with
      | some st =>
          simp [recordStep, obsOfRecord, hp, hm, lookup_map_modify_eq, upsertObs]
      | none =>
          simp [recordStep, obsOfRecord, hp, hm, lookup_map_modify_eq, lookup_append,
                lookup_singleton_eq, upsertObs]
    · have hne : s ≠ r.symbol := fun h => hsym h.symm
      by_cases hsome : (m.lookup r.symbol).isSome = true
      · simp [recordStep, obsOfRecord, hp, hsym, hsome, lookup_map_modify_ne s r.symbol hne]
      · simp [recordStep, obsOfRecord, hp, hsym, hsome, lookup_map_modify_ne s r.symbol hne,
              lookup_append, lookup_singleton_ne s r.symbol hne]

/-- Effect of a list of records (one entry's `stocks` array) on the stats
looked up for `s`. -/
theorem recordList_lookup (t : String) (rs : List StockRecord)
    (m : List (String × SymbolStats)) (s : String) :
    ((rs.foldl (recordStep t) m).lookup s) =
      (rs.flatMap (obsOfRecord s t)).foldl (upsertObs s) (m.lookup s) := by
  induction rs generalizing m with
  | nil => simp
  | cons r rest ih =>
    simp only [List.foldl_cons, List.flatMap_cons, List.foldl_append]
    rw [ih, recordStep_lookup]

/-- Effect of the whole log on the stats looked up for `s`. -/
theorem logFold_lookup (log : List DailyLogEntry) (m : List (String × SymbolStats))
    (s : String) :
    ((log.foldl entryStep m).lookup s) = (obsOf s log).foldl (upsertObs s) (m.lookup s) := by
  induction log generalizing m with
  | nil => simp [obsOf]
  | cons e rest ih =>
    simp only [List.foldl_cons, obsOf, List.flatMap_cons, List.foldl_append]
    rw [ih, entryStep, recordList_lookup]
    simp [obsOf, obsOfEntry]

/-- The stats record `statsMap` holds for `s` is exactly the fold of the
symbol's observations. -/
theorem statsMap_lookup (log : List DailyLogEntry) (s : String) :
    (statsMap log).lookup s = (obsOf s log).foldl (upsertObs s) none := by
  rw [statsMap, logFold_lookup]
  rfl

/-- Aggregation invariant tying a stats record to the list of prices it has
absorbed: exact sum and count, and a present min/max that are attained
members bounding every absorbed price. -/
def Good (ps : List ℚ) (st : SymbolStats) : Prop :=
  st.sum = ps.sum ∧ st.count = ps.length ∧
  ∃ mn mx, st.min = some mn ∧ st.max = some mx ∧ mn ∈ ps ∧ mx ∈ ps ∧
    ∀ q ∈ ps, mn ≤ q ∧ q ≤ mx

/-- Field-by-field description of `applyPrice`, unravelling the sequential
struct updates. -/
theorem applyPrice_fields (t : String) (p : ℚ) (st : SymbolStats) :
    (applyPrice t p st).sum = st.sum + p ∧ (applyPrice t p st).count = st.count + 1 ∧
    (applyPrice t p st).min = (if ltMin p st.min then some p else st.min) ∧
    (applyPrice t p st).max = (if gtMax p st.max then some p else st.max) ∧
    (applyPrice t p st).symbol = st.symbol ∧ (applyPrice t p st).company = st.company := by
  unfold applyPrice
  by_cases h1 : ltMin p st.min = true <;> by_cases h2 : gtMax p st.max = true <;>
    simp [h1, h2]

theorem applyPrice_good (t : String) (p : ℚ) (ps : List ℚ) (st : SymbolStats)
    (hg : Good ps st) : Good (ps ++ [p]) (applyPrice t p st) := by
  obtain ⟨hfsum, hfcount, hfmin, hfmax, hfsym, hfcomp⟩ := applyPrice_fields t p st
  obtain ⟨hsum, hcount, mn, mx, hmin, hmax, hmnmem, hmxmem, hbounds⟩ := hg
  refine ⟨?_, ?_, ?_⟩
  · rw [hfsum, hsum]
    simp
  · rw [hfcount, hcount]
    simp
  refine ⟨if p < mn then p else mn, if mx < p then p else mx, ?_, ?_, ?_, ?_, ?_⟩
  · rw [hfmin, hmin]
    by_cases h1 : p < mn <;> simp [ltMin, h1]
  · rw [hfmax, hmax]
    by_cases h2 : mx < p <;> simp [gtMax, h2]
  · by_cases h1 : p < mn <;> simp [h1, hmnmem]
  · by_cases h2 : mx < p <;> simp [h2, hmxmem]
  · intro q hq
    have hmn_le_p : (if p < mn then p else mn) ≤ p := by
      by_cases h1 : p < mn
      · simp [h1]
      · simp only [h1, if_false]
        linarith [not_lt.mp h1]
    have hp_le_mx : p ≤ (if mx < p then p else mx) := by
      by_cases h2 : mx < p
      · simp [h2]
      · simp only [h2, if_false]
        linarith [not_lt.mp h2]
    rcases List.mem_append.mp hq with hq2 | hq2
    · obtain ⟨hl, hr⟩ := hbounds q hq2
      constructor
      · by_cases h1 : p < mn
        · simp only [h1, if_true]
          linarith
        · simpa [h1] using hl
      · by_cases h2 : mx < p
        · simp only [h2, if_true]
          linarith
        · simpa [h2] using hr
    · have hqp : q = p := by simpa using hq2
      subst hqp
      exact ⟨hmn_le_p, hp_le_mx⟩

/-- Absorbing the very first observation into a fresh stats record
establishes the invariant. -/
theorem applyPrice_init_good (t : String) (p : ℚ) (c s : String) :
    Good [p] (applyPrice t p (initStats c s)) := by
  obtain ⟨hfsum, hfcount, hfmin, hfmax, hfsym, hfcomp⟩ := applyPrice_fields t p (initStats c s)
  refine ⟨?_, ?_, p, p, ?_, ?_, by simp, by simp, ?_⟩
  · rw [hfsum]
    simp [initStats]
  · rw [hfcount]
    simp [initStats]
  · rw [hfmin]
    simp [initStats, ltMin]
  · rw [hfmax]
    simp [initStats, gtMax]
  · intro q hq
    have hqp : q = p := by simpa using hq
    rw [hqp]
    exact ⟨le_refl p, le_refl p⟩

theorem applyPrice_symbol (t : String) (p : ℚ) (st : SymbolStats) :
    (applyPrice t p st).symbol = st.symbol :=
  (applyPrice_fields t p st).2.2.2.2.1

theorem applyPrice_company (t : String) (p : ℚ) (st : SymbolStats) :
    (applyPrice t p st).company = st.company :=
  (applyPrice_fields t p st).2.2.2.2.2

/-- Folding more observations into a stats record preserves the invariant. -/
theorem foldl_applyObs_good (l : List Obs) (ps : List ℚ) (st : SymbolStats)
    (hg : Good ps st) : Good (ps ++ l.map Obs.p) (l.foldl applyObs st) := by
  induction l generalizing ps st with
  | nil => simpa using hg
  | cons ob rest ih =>
    have h1 : Good (ps ++ [ob.p]) (applyObs st ob) := applyPrice_good ob.t ob.p ps st hg
    have h2 := ih (ps ++ [ob.p]) (applyObs st ob) h1
    simpa [List.append_assoc] using h2

theorem foldl_applyObs_symbol (l : List Obs) (st : SymbolStats) :
    (l.foldl applyObs st).symbol = st.symbol := by
  induction l generalizing st with
  | nil => rfl
  | cons ob rest ih =>
    rw [List.foldl_cons, ih, applyObs, applyPrice_symbol]

/-- Once the accumulator is present, `upsertObs` is the plain update fold. -/
theorem foldl_upsertObs_some (s : String) (l : List Obs) (st : SymbolStats) :
    l.foldl (upsertObs s) (some st) = some (l.foldl applyObs st) := by
  induction l generalizing st with
  | nil => rfl
  | cons ob rest ih =>
    rw [List.foldl_cons, List.foldl_cons]
    rw [show upsertObs s (some st) ob = some (applyObs st ob) from rfl, ih]

/-- Characterization of the observation fold from the empty accumulator: a
nonempty observation list yields a stats record for symbol `s` satisfying the
aggregation invariant over exactly the observed prices. -/
theorem fold_upsert_char (s : String) (l : List Obs) (hne : l ≠ []) :
    ∃ st, l.foldl (upsertObs s) none = some st ∧ st.symbol = s ∧ Good (l.map Obs.p) st := by
  cases l with
  | nil => exact absurd rfl hne
  | cons ob rest =>
    refine ⟨rest.foldl applyObs (applyPrice ob.t ob.p (initStats ob.company s)), ?_, ?_, ?_⟩
    · rw [List.foldl_cons,
        show upsertObs s none ob = some (applyPrice ob.t ob.p (initStats ob.company s)) from rfl,
        foldl_upsertObs_some]
    · rw [foldl_applyObs_symbol, applyPrice_symbol]
      rfl
    · have := foldl_applyObs_good rest [ob.p]
        (applyPrice ob.t ob.p (initStats ob.company s)) (applyPrice_init_good ob.t ob.p ob.company s)
      simpa using this

/-- The stats map holds an entry for `s` iff some non-null price for `s` was
ever logged. -/
theorem statsMap_isSome_iff (log : List DailyLogEntry) (s : String) :
    ((statsMap log).lookup s).isSome = true ↔ pricesOf s log ≠ [] := by
  rw [statsMap_lookup]
  constructor
  · intro h hcontra
    have hobs : obsOf s log = [] := by
      have := congrArg List.length hcontra
      simp [pricesOf] at this
      simpa [List.length_eq_zero] using this
    rw [hobs] at h
    simp at h
  · intro h
    have hobs : obsOf s log ≠ [] := by
      intro hc
      exact h (by simp [pricesOf, hc])
    obtain ⟨st, hst, _, _⟩ := fold_upsert_char s (obsOf s log) hobs
    simp [hst]

/-- Everything C4/C10 need about a stats-map entry: it belongs to symbol `s`
and satisfies the aggregation invariant over the non-null prices of `s`. -/
theorem statsMap_lookup_some (log : List DailyLogEntry) (s : String) (st : SymbolStats)
    (h : (statsMap log).lookup s = some st) :
    st.symbol = s ∧ Good (pricesOf s log) st ∧ pricesOf s log ≠ [] := by
  have hne : pricesOf s log ≠ [] := by
    have : ((statsMap log).lookup s).isSome = true := by simp [h]
    exact (statsMap_isSome_iff log s).mp this
  have hobs : obsOf s log ≠ [] := by
    intro hc
    exact hne (by simp [pricesOf, hc])
  obtain ⟨st2, hst2, hsym2, hgood2⟩ := fold_upsert_char s (obsOf s log) hobs
  have : st = st2 := by
    rw [statsMap_lookup] at h
    rw [h] at hst2
    exact Option.some.inj hst2
  subst this
  exact ⟨hsym2, hgood2, hne⟩

theorem length_mul_le_sum (l : List ℚ) (b : ℚ) (h : ∀ x ∈ l, b ≤ x) :
    (l.length : ℚ) * b ≤ l.sum := by
  induction l with
  | nil => simp
  | cons x rest ih =>
    simp only [List.sum_cons, List.length_cons]
    have h1 : b ≤ x := h x (by simp)
    have h2 : (rest.length : ℚ) * b ≤ rest.sum := ih (fun y hy => h y (by simp [hy]))
    push_cast
    nlinarith

theorem sum_le_length_mul (l : List ℚ) (b : ℚ) (h : ∀ x ∈ l, x ≤ b) :
    l.sum ≤ (l.length : ℚ) * b := by
  induction l with
  | nil => simp
  | cons x rest ih =>
    simp only [List.sum_cons, List.length_cons]
    have h1 : x ≤ b := h x (by simp)
    have h2 : rest.sum ≤ (rest.length : ℚ) * b := ih (fun y hy => h y (by simp [hy]))
    push_cast
    nlinarith

/-- C4: for every daily log and every symbol the stats map has an entry for,
that entry's sum and count range over exactly the non-null prices logged for
the symbol (null-price records contribute to neither), the summary's
`averagePrice` equals the arithmetic mean of those prices, and min/max are
attained among exactly those prices too. -/
theorem summary_average_is_mean (log : List DailyLogEntry) (s : String) (st : SymbolStats)
    (h : (statsMap log).lookup s = some st) :
    st.sum = (pricesOf s log).sum ∧ st.count = (pricesOf s log).length ∧
    0 < (pricesOf s log).length ∧
    (summarize st).averagePrice = (pricesOf s log).sum / ((pricesOf s log).length : ℚ) ∧
    ∃ mn mx, st.min = some mn ∧ st.max = some mx ∧
      mn ∈ pricesOf s log ∧ mx ∈ pricesOf s log ∧
      ∀ q ∈ pricesOf s log, mn ≤ q ∧ q ≤ mx := by
  obtain ⟨hsym, hgood, hne⟩ := statsMap_lookup_some log s st h
  obtain ⟨hsum, hcount, hminmax⟩ := hgood
  have hpos : 0 < (pricesOf s log).length := List.length_pos.mpr hne
  have hcpos : 0 < st.count := by rw [hcount]; exact hpos
  refine ⟨hsum, hcount, hpos, ?_, hminmax⟩
  simp only [summarize, hcpos, if_pos]
  rw [hsum, hcount]

/-- Keys of the stats map are distinct and each entry's stored symbol equals
its key. -/
def StatsMapInv (m : List (String × SymbolStats)) : Prop :=
  (m.map Prod.fst).Nodup ∧ ∀ p ∈ m, p.2.symbol = p.1

theorem recordStep_inv (t : String) (m : List (String × SymbolStats)) (r : StockRecord)
    (h : StatsMapInv m) : StatsMapInv (recordStep t m r) := by
  cases hp : r.price with
  | none => simpa [recordStep, hp] using h
  | some p =>
    have h1 : StatsMapInv (if (m.lookup r.symbol).isSome then m
        else m ++ [(r.symbol, initStats r.company r.symbol)]) := by
      by_cases hsome : (m.lookup r.symbol).isSome = true
      · simpa [hsome] using h
      · have hnone : m.lookup r.symbol = none := by
          cases hl : m.lookup r.symbol
          · rfl
          · rw [hl] at hsome; simp at hsome
        have hnotmem : r.symbol ∉ m.map Prod.fst := (lookup_none_iff r.symbol m).mp hnone
        simp only [hsome, Bool.false_eq_true, if_false]
        constructor
        · rw [List.map_append]
          refine List.Nodup.append h.1 (by simp) ?_
          intro a ha hb
          have hab : a = r.symbol := by simpa using hb
          rw [hab] at ha
          exact hnotmem ha
        · intro q hq
          rcases List.mem_append.mp hq with hq2 | hq2
          · exact h.2 q hq2
          · have hq3 : q = (r.symbol, initStats r.company r.symbol) := by simpa using hq2
            rw [hq3]
            rfl
    have hrw : recordStep t m r =
        (if (m.lookup r.symbol).isSome then m
         else m ++ [(r.symbol, initStats r.company r.symbol)]).map
          (fun q => if q.1 = r.symbol then (q.1, applyPrice t p q.2) else q) := by
      simp [recordStep, hp]
    rw [hrw]
    constructor
    · rw [keys_map_modify]
      exact h1.1
    · intro q hq
      obtain ⟨q0, hq0, hfq⟩ := List.mem_map.mp hq
      by_cases hqk : q0.1 = r.symbol
      · rw [← hfq, if_pos hqk]
        simp [applyPrice_symbol, h1.2 q0 hq0]
      · rw [← hfq, if_neg hqk]
        exact h1.2 q0 hq0

theorem statsMap_inv (log : List DailyLogEntry) : StatsMapInv (statsMap log) := by
  have hfold : ∀ (rs : List StockRecord) (t : String) (m : List (String × SymbolStats)),
      StatsMapInv m → StatsMapInv (rs.foldl (recordStep t) m) := by
    intro rs t
    induction rs with
    | nil => intro m h; exact h
    | cons r rest ih => intro m h; exact ih _ (recordStep_inv t m r h)
  have hentry : ∀ (log2 : List DailyLogEntry) (m : List (String × SymbolStats)),
      StatsMapInv m → StatsMapInv (log2.foldl entryStep m) := by
    intro log2
    induction log2 with
    | nil => intro m h; exact h
    | cons e rest ih => intro m h; exact ih _ (hfold e.stocks e.timestamp m h)
  exact hentry log [] ⟨by simp, by simp⟩

theorem countP_beq_nodup (l : List String) (hnd : l.Nodup) (s : String) :
    l.countP (fun k => k == s) = if s ∈ l then 1 else 0 := by
  induction l with
  | nil => simp
  | cons a rest ih =>
    simp only [List.nodup_cons] at hnd
    rw [List.countP_cons]
    by_cases has : a = s
    · subst has
      have hzero : rest.countP (fun k => k == a) = 0 := by
        rw [List.countP_eq_zero]
        intro k hk
        simp only [beq_iff_eq]
        intro hka
        rw [hka] at hk
        exact hnd.1 hk
      simp [hzero, ih hnd.2]
    · have hb : (a == s) = false := by simp [has]
      have hsmem : s ∈ a :: rest ↔ s ∈ rest := by
        constructor
        · intro hmem
          rcases List.mem_cons.mp hmem with h2 | h2
          · exact absurd h2.symm has
          · exact h2
        · intro hmem
          exact List.mem_cons_of_mem a hmem
      rw [hb, ih hnd.2]
      by_cases hsr : s ∈ rest
      · rw [if_pos hsr, if_pos (hsmem.mpr hsr)]
        simp
      · rw [if_neg hsr, if_neg (fun hc => hsr (hsmem.mp hc))]
        simp

/-- C5: for every daily log and every symbol, the final summary contains
exactly one entry for that symbol when at least one non-null price was logged
for it, and none at all when every record for it had a null price (or it
never appeared). -/
theorem one_summary_entry_per_successful_symbol (log : List DailyLogEntry) (s : String) :
    (finalSummary log).countP (fun e => e.symbol == s) =
      if pricesOf s log = [] then 0 else 1 := by
  obtain ⟨hnd, hsymkey⟩ := statsMap_inv log
  have h1 : (finalSummary log).countP (fun e => e.symbol == s) =
      (statsMap log).countP (fun p => p.1 == s) := by
    rw [finalSummary, List.countP_map]
    refine List.countP_congr ?_
    intro p hp
    simp [Function.comp, summarize, hsymkey p hp]
  have h2 : (statsMap log).countP (fun p => p.1 == s) =
      ((statsMap log).map Prod.fst).countP (fun k => k == s) := by
    rw [List.countP_map]
    rfl
  rw [h1, h2, countP_beq_nodup _ hnd]
  by_cases hmem : s ∈ (statsMap log).map Prod.fst
  · have hne : pricesOf s log ≠ [] := by
      apply (statsMap_isSome_iff log s).mp
      cases hl : (statsMap log).lookup s
      · exact absurd hmem ((lookup_none_iff s (statsMap log)).mp hl)
      · rfl
    rw [if_pos hmem, if_neg hne]
  · have hnone : (statsMap log).lookup s = none := (lookup_none_iff s (statsMap log)).mpr hmem
    have hempty : pricesOf s log = [] := by
      by_contra hne
      have := (statsMap_isSome_iff log s).mpr hne
      rw [hnone] at this
      simp at this
    rw [if_neg hmem, if_pos hempty]

/-- C10: every entry the final summary emits is backed by a stats record with
`count >= 1` (so the `count == 0` fallback of the average is unreachable and
the average is genuinely `sum / count`), its `minPrice` and `maxPrice` are
never null, and `minPrice <= averagePrice <= maxPrice`. -/
theorem summary_entry_bounds (log : List DailyLogEntry) (e : SummaryEntry)
    (he : e ∈ finalSummary log) :
    ∃ st, (statsMap log).lookup e.symbol = some st ∧ e = summarize st ∧
      1 ≤ st.count ∧ e.averagePrice = st.sum / (st.count : ℚ) ∧
      ∃ mn mx, e.minPrice = some mn ∧ e.maxPrice = some mx ∧
        mn ≤ e.averagePrice ∧ e.averagePrice ≤ mx := by
  obtain ⟨hnd, hsymkey⟩ := statsMap_inv log
  obtain ⟨p, hp, hpe⟩ := List.mem_map.mp he
  have hesym : e.symbol = p.1 := by
    rw [← hpe]
    simp [summarize, hsymkey p hp]
  have hlook : (statsMap log).lookup e.symbol = some p.2 := by
    rw [hesym]
    exact lookup_of_mem_nodup _ p hnd hp
  obtain ⟨hsym, hgood, hne⟩ := statsMap_lookup_some log e.symbol p.2 hlook
  obtain ⟨hsum, hcount, mn, mx, hmin, hmax, hmnmem, hmxmem, hbounds⟩ := hgood
  have hlenpos : 0 < (pricesOf e.symbol log).length := List.length_pos.mpr hne
  have hcpos : 0 < p.2.count := by rw [hcount]; exact hlenpos
  have hlenposq : (0 : ℚ) < ((pricesOf e.symbol log).length : ℚ) := by exact_mod_cast hlenpos
  have havg : e.averagePrice = p.2.sum / (p.2.count : ℚ) := by
    rw [← hpe]
    simp [summarize, hcpos]
  refine ⟨p.2, hlook, hpe.symm, hcpos, havg, mn, mx, ?_, ?_, ?_, ?_⟩
  · rw [← hpe]
    simp [summarize, hmin]
  · rw [← hpe]
    simp [summarize, hmax]
  · rw [havg, hsum, hcount]
    have hlb : ((pricesOf e.symbol log).length : ℚ) * mn ≤ (pricesOf e.symbol log).sum :=
      length_mul_le_sum _ mn (fun x hx => (hbounds x hx).1)
    exact (le_div_iff₀ hlenposq).mpr (by rw [mul_comm]; exact hlb)
  · rw [havg, hsum, hcount]
    have hub : (pricesOf e.symbol log).sum ≤ ((pricesOf e.symbol log).length : ℚ) * mx :=
      sum_le_length_mul _ mx (fun x hx => (hbounds x hx).2)
    exact (div_le_iff₀ hlenposq).mpr (by rw [mul_comm]; exact hub)

/-- Concrete two-cycle log used to witness the average characterization:
INTC fetched at 10 then 20, ENVAR never successfully fetched. -/
def logC4 : List DailyLogEntry :=
  [⟨"t1", [⟨"Intel", "INTC", some 10, "USD", some 0⟩,
           ⟨"ENVAR", "ENVAR.ST", none, "", none⟩]⟩,
   ⟨"t2", [⟨"Intel", "INTC", some 20, "USD", some 100⟩]⟩]

/-- Witness for `summary_average_is_mean`: on `logC4` the INTC stats are
sum 30 over count 2 and the summarized average is the mean of [10, 20]. -/
theorem summary_average_is_mean_witness :
    (⟨"Intel", "INTC", 30, 2, some 10, "t1", some 20, "t2"⟩ : SymbolStats).sum =
        (pricesOf "INTC" logC4).sum ∧
    (⟨"Intel", "INTC", 30, 2, some 10, "t1", some 20, "t2"⟩ : SymbolStats).count =
        (pricesOf "INTC" logC4).length ∧
    0 < (pricesOf "INTC" logC4).length ∧
    (summarize (⟨"Intel", "INTC", 30, 2, some 10, "t1", some 20, "t2"⟩ : SymbolStats)).averagePrice =
        (pricesOf "INTC" logC4).sum / ((pricesOf "INTC" logC4).length : ℚ) ∧
    ∃ mn mx,
      (⟨"Intel", "INTC", 30, 2, some 10, "t1", some 20, "t2"⟩ : SymbolStats).min = some mn ∧
      (⟨"Intel", "INTC", 30, 2, some 10, "t1", some 20, "t2"⟩ : SymbolStats).max = some mx ∧
      mn ∈ pricesOf "INTC" logC4 ∧ mx ∈ pricesOf "INTC" logC4 ∧
      ∀ q ∈ pricesOf "INTC" logC4, mn ≤ q ∧ q ≤ mx :=
  summary_average_is_mean logC4 "INTC" ⟨"Intel", "INTC", 30, 2, some 10, "t1", some 20, "t2"⟩
    (by norm_num [logC4, statsMap, entryStep, recordStep, applyPrice, initStats, ltMin, gtMax,
      List.lookup])

/-- Concrete one-cycle log used to witness the summary-entry bounds. -/
def logC10 : List DailyLogEntry :=
  [⟨"t1", [⟨"Ovzon", "OVZON.ST", some 10, "SEK", some 0⟩]⟩]

/-- Witness for `summary_entry_bounds`: the single OVZON.ST summary entry of
`logC10`. -/
theorem summary_entry_bounds_witness :
    ∃ st, (statsMap logC10).lookup
        (⟨"Ovzon", "OVZON.ST", 10, some 10, "t1", some 10, "t1"⟩ : SummaryEntry).symbol =
          some st ∧
      (⟨"Ovzon", "OVZON.ST", 10, some 10, "t1", some 10, "t1"⟩ : SummaryEntry) = summarize st ∧
      1 ≤ st.count ∧
      (⟨"Ovzon", "OVZON.ST", 10, some 10, "t1", some 10, "t1"⟩ : SummaryEntry).averagePrice =
        st.sum / (st.count : ℚ) ∧
      ∃ mn mx,
        (⟨"Ovzon", "OVZON.ST", 10, some 10, "t1", some 10, "t1"⟩ : SummaryEntry).minPrice =
          some mn ∧
        (⟨"Ovzon", "OVZON.ST", 10, some 10, "t1", some 10, "t1"⟩ : SummaryEntry).maxPrice =
          some mx ∧
        mn ≤ (⟨"Ovzon", "OVZON.ST", 10, some 10, "t1", some 10, "t1"⟩ : SummaryEntry).averagePrice ∧
        (⟨"Ovzon", "OVZON.ST", 10, some 10, "t1", some 10, "t1"⟩ : SummaryEntry).averagePrice ≤ mx :=
  summary_entry_bounds logC10 ⟨"Ovzon", "OVZON.ST", 10, some 10, "t1", some 10, "t1"⟩
    (by norm_num [logC10, finalSummary, statsMap, entryStep, recordStep, applyPrice, initStats,
      ltMin, gtMax, summarize, List.lookup])
